import Mathlib

/-!
Panoptes-Stream: the Consul discovery adapter.

A shallow embedding of `discovery/consul/consul.go` (slot allocation with `getID`,
`Register`, `register`, `GetInstances`, the `Watch` handler and `getTLSConfig`) together
with the Go standard-library helpers it calls (`strconv.Itoa`, `strconv.Atoi`,
`sort.Ints`, `path.Join`).

Conventions.
* Go `int` values are embedded as `Int`; the only arithmetic the code performs on them is
  comparison, so no wrap-around can occur.  `strconv.Atoi` keeps its 64-bit range check.
* Go strings are embedded as `String`.  The code only inspects the ASCII bytes
  `+ - . /` and the digits, which never occur inside a multi-byte UTF-8 sequence.
* A Go `error` is an `Option Error` (`none` is `nil`); a `[]byte` is a `List Nat`, with
  the nil slice identified with the empty one.
-/

namespace Panoptes

/-! ## strconv -/

/-- Go error values, identified by their message. -/
abbrev Error := String

/-- The decimal digit character of `d` (for `d < 10`). -/
def digitChar (d : Nat) : Char :=
  match d with
  | 0 => '0' | 1 => '1' | 2 => '2' | 3 => '3' | 4 => '4'
  | 5 => '5' | 6 => '6' | 7 => '7' | 8 => '8' | _ => '9'

/-- Decimal digits of `n`, most significant first, without leading zeros
(`strconv.formatBits` in base 10).  The first argument bounds the number of digits. -/
def formatDecimal : Nat → Nat → List Char
  | 0, _ => []
  | fuel + 1, n =>
    if n < 10 then [digitChar n]
    else formatDecimal fuel (n / 10) ++ [digitChar (n % 10)]

/-- Go `strconv.Itoa`: the base-10 rendering of an `int`, with a leading `-` when negative. -/
def Itoa (i : Int) : String :=
  match i with
  | Int.ofNat n => String.mk (formatDecimal (n + 1) n)
  | Int.negSucc n => String.mk ('-' :: formatDecimal (n + 2) (n + 1))

/-- The value of a decimal digit character, `none` for any other character. -/
def digitVal (c : Char) : Option Nat :=
  if 48 ≤ c.toNat ∧ c.toNat ≤ 57 then some (c.toNat - 48) else none

/-- Left-to-right accumulation `n = n*10 + digit` of `strconv.Atoi`; `none` on a non-digit. -/
def parseDigits : Nat → List Char → Option Nat
  | acc, [] => some acc
  | acc, c :: cs =>
    match digitVal c with
    | none => none
    | some d => parseDigits (acc * 10 + d) cs

/-- Go `strconv.Atoi` on a 64-bit platform: an optional sign followed by at least one decimal
digit, the value lying in `[-2^63, 2^63)`.  `none` stands for a non-nil error. -/
def Atoi (s : String) : Option Int :=
  match s.data with
  | [] => none
  | c :: cs =>
    if c = '-' then
      if cs = [] then none
      else (parseDigits 0 cs).bind fun n => if n ≤ 2 ^ 63 then some (-(n : Int)) else none
    else if c = '+' then
      if cs = [] then none
      else (parseDigits 0 cs).bind fun n => if n < 2 ^ 63 then some (n : Int) else none
    else (parseDigits 0 (c :: cs)).bind fun n => if n < 2 ^ 63 then some (n : Int) else none

/-- Go `strconv.FormatBool`. -/
def FormatBool (b : Bool) : String := if b then "true" else "false"

/-! ## Slot allocation -/

/-- Go `sort.Ints`: the ascending rearrangement of the slice. -/
def sortInts (ids : List Int) : List Int := List.insertionSort (fun a b => a ≤ b) ids

/-- The loop `for i, id := range ids` of `getID`, started at index `i`: the first index whose
element differs from it, `none` when the loop runs to completion. -/
def getIDLoop : Nat → List Int → Option Nat
  | _, [] => none
  | i, id :: rest => if (i : Int) ≠ id then some i else getIDLoop (i + 1) rest

/-- Embedding of `getID` (consul.go, lines 198-216). -/
def getID (ids : List Int) : String :=
  if ids.length < 1 then "0"
  else
    match getIDLoop 0 (sortInts ids) with
    | some i => Itoa (i : Int)
    | none => Itoa (ids.length : Int)

/-! ## path -/

/-- The inner loop of the `..` case of `path.Clean`: drop the last byte of the output buffer,
then keep dropping while more than `dotdot` bytes remain and the byte just dropped is not a
slash.  The buffer is held last byte first. -/
def cleanBacktrack (dotdot : Nat) : List Char → List Char
  | [] => []
  | c :: rest => if rest.length > dotdot ∧ c ≠ '/' then cleanBacktrack dotdot rest else rest

/-- The main loop `for r < n` of Go `path.Clean`.  Arguments: whether the path is rooted, a
bound on the number of iterations, the unread part of the path, the output buffer (last byte
first) and the index `dotdot` below which `..` must not backtrack. -/
def cleanLoop (rooted : Bool) : Nat → List Char → List Char → Nat → List Char
  | 0, _, out, _ => out
  | _ + 1, [], out, _ => out
  | fuel + 1, c :: cs, out, dotdot =>
    if c = '/' then cleanLoop rooted fuel cs out dotdot
    else if c = '.' ∧ (cs = [] ∨ cs.head? = some '/') then cleanLoop rooted fuel cs out dotdot
    else if c = '.' ∧ cs.head? = some '.' ∧ (cs.tail = [] ∨ cs.tail.head? = some '/') then
      if out.length > dotdot then
        cleanLoop rooted fuel cs.tail (cleanBacktrack dotdot out) dotdot
      else if rooted = false then
        cleanLoop rooted fuel cs.tail
          ('.' :: '.' :: (if out.length > 0 then '/' :: out else out))
          ((if out.length > 0 then '/' :: out else out).length + 2)
      else cleanLoop rooted fuel cs.tail out dotdot
    else
      cleanLoop rooted fuel ((c :: cs).dropWhile fun x => x ≠ '/')
        (((c :: cs).takeWhile fun x => x ≠ '/').reverse ++
          (if (rooted = true ∧ out.length ≠ 1) ∨ (rooted = false ∧ out.length ≠ 0)
            then '/' :: out else out))
        dotdot

/-- Go `path.Clean`: the shortest path equivalent to `path` by purely lexical processing.
Every iteration of the loop consumes at least one byte, so `length + 1` iterations suffice. -/
def Clean (path : String) : String :=
  if path.data = [] then "."
  else
    let rooted : Bool := path.data.head? = some '/'
    let out :=
      if rooted then cleanLoop true (path.data.length + 1) path.data.tail ['/'] 1
      else cleanLoop false (path.data.length + 1) path.data [] 0
    if out.length = 0 then "." else String.mk out.reverse

/-- The buffer-building loop of Go `path.Join`: elements are separated by a slash, empty
elements before the first non-empty one are skipped. -/
def joinBuf : List String → List Char → List Char
  | [], buf => buf
  | e :: es, buf =>
    if buf.length > 0 ∨ e.data ≠ [] then
      joinBuf es ((if buf.length > 0 then buf ++ ['/'] else buf) ++ e.data)
    else joinBuf es buf

/-- Go `path.Join`: joins the elements with slashes and cleans the result; the empty string
when every element is empty. -/
def Join (elem : List String) : String :=
  if (elem.map fun e => e.data.length).sum = 0 then ""
  else Clean (String.mk (joinBuf elem []))

/-! ## Configuration and registry data -/

/-- Modelled from the spec: the `config` package is not among the sources; `TLSConfig` is the
struct of section 4.B with the fields `consul.go` and its test read. -/
structure config.TLSConfig where
  Enabled : Bool := false
  CertFile : String := ""
  KeyFile : String := ""
  CAFile : String := ""
  InsecureSkipVerify : Bool := false
  deriving DecidableEq, Repr

/-- Modelled from the spec: the shard block of `Global` (section 3). -/
structure config.Shard where
  Enabled : Bool := false
  NumberOfNodes : Int := 0
  deriving DecidableEq, Repr

/-- Modelled from the spec: the status endpoint block of `Global` (section 3). -/
structure config.Status where
  Addr : String := ""
  TLSConfig : config.TLSConfig := {}
  deriving DecidableEq, Repr

/-- Modelled from the spec: the process-wide settings `cfg.Global()` that `consul.go` reads. -/
structure config.Global where
  Status : config.Status := {}
  Shard : config.Shard := {}
  Version : String := ""
  deriving DecidableEq, Repr

/-- Modelled from the spec: a cluster member (`discovery.Instance`, section 3). -/
structure discovery.Instance where
  ID : String
  Meta : List (String × String)
  Address : String
  Status : String
  deriving DecidableEq, Repr

/-- The health check of a service registration (`api.AgentServiceCheck`). -/
structure api.AgentServiceCheck where
  HTTP : String
  Interval : String
  Timeout : String
  deriving DecidableEq, Repr

/-- The registration sent to the agent (`api.AgentServiceRegistration`). -/
structure api.AgentServiceRegistration where
  ID : String
  Name : String
  Meta : List (String × String)
  Address : String
  Check : api.AgentServiceCheck
  deriving DecidableEq, Repr

/-- A registered service as the agent reports it (`api.AgentService`). -/
structure api.AgentService where
  ID : String
  Meta : List (String × String)
  Address : String
  deriving DecidableEq, Repr

/-- One entry of the agent's health answer (`api.AgentServiceChecksInfo`); `Status` is the
value of `info.Checks.AggregatedStatus()`. -/
structure api.AgentServiceChecksInfo where
  Service : api.AgentService
  Status : String
  deriving DecidableEq, Repr

/-- The TLS settings of the Consul client (`api.TLSConfig`). -/
structure api.TLSConfig where
  Address : String := ""
  CAFile : String := ""
  CAPath : String := ""
  CAPem : List Nat := []
  CertFile : String := ""
  CertPEM : List Nat := []
  KeyFile : String := ""
  KeyPEM : List Nat := []
  InsecureSkipVerify : Bool := false
  deriving DecidableEq, Repr

/-- The fields of `Consul` that carry data: the published id, the agent address and the
configuration.  Logger, client and lock handler are the environment `Env`. -/
structure Consul where
  id : String := ""
  addr : String := ""
  cfg : config.Global := {}
  deriving DecidableEq, Repr

/-- The discovery configuration block (`consulConfig`). -/
structure consulConfig where
  Address : String := ""
  Prefix : String := ""
  TLSConfig : config.TLSConfig := {}
  deriving DecidableEq, Repr

/-- A line written to the logger: level, message and the value of its field. -/
structure LogEntry where
  level : String
  msg : String
  field : String
  deriving DecidableEq, Repr

/-- What the outside world answers during one call: the operating system's hostname, the
lock and unlock results, the agent's health answer per service name and the agent's answer
to a registration. -/
structure Env where
  Hostname : Except Error String
  Lock : String → Option Error
  Unlock : Option Error
  AgentHealthServiceByName : String → Except Error (List api.AgentServiceChecksInfo)
  ServiceRegister : api.AgentServiceRegistration → Option Error

/-- The result of a call of `Register`: the `Consul` value afterwards, the returned error,
the registrations sent to the agent and the lines logged. -/
structure Outcome where
  c : Consul
  err : Option Error
  calls : List api.AgentServiceRegistration
  log : List LogEntry
  deriving DecidableEq, Repr

/-! ## The adapter -/

/-- Embedding of `hostname` (consul.go, lines 189-196). -/
def hostname (env : Env) : String :=
  match env.Hostname with
  | .error _ => "unknown"
  | .ok name => name

/-- The registration built by `register` (consul.go, lines 122-140). -/
def registration (c : Consul) (id hostname : String) (svcMeta : List (String × String)) :
    api.AgentServiceRegistration :=
  let hcEndpoint := Join [c.cfg.Status.Addr, "healthcheck"]
  let hcEndpoint :=
    if c.cfg.Status.TLSConfig.Enabled then "https://" ++ hcEndpoint else "http://" ++ hcEndpoint
  { ID := id
    Name := "panoptes"
    Meta := svcMeta
    Address := hostname
    Check := { HTTP := hcEndpoint, Interval := "10s", Timeout := "2s" } }

/-- Embedding of `Consul.register` (consul.go, lines 121-143): the agent's answer to the
registration. -/
def register (env : Env) (c : Consul) (id hostname : String) (svcMeta : List (String × String)) :
    Option Error :=
  env.ServiceRegister (registration c id hostname svcMeta)

/-- Embedding of `Consul.GetInstances` (consul.go, lines 146-162). -/
def GetInstances (env : Env) : Except Error (List discovery.Instance) :=
  match env.AgentHealthServiceByName "panoptes" with
  | .error e => .error e
  | .ok checksInfo =>
    .ok (checksInfo.map fun info =>
      { ID := info.Service.ID
        Meta := info.Service.Meta
        Address := info.Service.Address
        Status := info.Status })

/-- The loop over the instances in `Register` followed by the new-node branch
(consul.go, lines 88-118); `ids` and `log` are what has been collected so far. -/
def registerLoop (env : Env) (svcMeta : List (String × String)) (c : Consul) :
    List discovery.Instance → List Int → List LogEntry → Outcome
  | [], ids, log =>
    let c1 : Consul := { c with id := getID ids }
    match register env c1 c1.id (hostname env) svcMeta with
    | some e => ⟨c1, some e, [registration c1 c1.id (hostname env) svcMeta], log⟩
    | none =>
      ⟨c1, none, [registration c1 c1.id (hostname env) svcMeta],
        log ++ [⟨"info", "consul service registered", c1.id⟩]⟩
  | inst :: rest, ids, log =>
    match Atoi inst.ID with
    | none =>
      registerLoop env svcMeta c rest ids (log ++ [⟨"warn", "consul.register", inst.ID⟩])
    | some id =>
      if inst.Address = hostname env then
        match register env c inst.ID (hostname env) svcMeta with
        | some e => ⟨c, some e, [registration c inst.ID (hostname env) svcMeta], log⟩
        | none =>
          ⟨{ c with id := inst.ID }, none, [registration c inst.ID (hostname env) svcMeta],
            log ++ [⟨"info", "consul service registery recovered", inst.ID⟩]⟩
      else registerLoop env svcMeta c rest (ids ++ [id]) log

/-- The deferred `c.ulock()` (consul.go, lines 183-187): an unlock failure is only logged. -/
def ulock (env : Env) (out : Outcome) : Outcome :=
  match env.Unlock with
  | some e => { out with log := out.log ++ [⟨"error", "consul.unlock", e⟩] }
  | none => out

/-- Embedding of `Consul.Register` (consul.go, lines 70-119). -/
def Register (env : Env) (c : Consul) : Outcome :=
  match env.Lock "panoptes_global_lock" with
  | some e => ⟨c, some e, [], []⟩
  | none =>
    let svcMeta : List (String × String) :=
      [("shard_enabled", FormatBool c.cfg.Shard.Enabled),
       ("shard_nodes", Itoa c.cfg.Shard.NumberOfNodes),
       ("version", c.cfg.Version)]
    match GetInstances env with
    | .error e => ulock env ⟨c, some e, [], []⟩
    | .ok instances => ulock env (registerLoop env svcMeta c instances [] [])

/-! ## The service registry -/

/-- The agent's service table: the registrations it holds, one per service id. -/
abbrev Registry := List api.AgentServiceRegistration

/-- The agent's `ServiceRegister`: a registration replaces the entry with the same id. -/
def Registry.ServiceRegister (r : Registry) (reg : api.AgentServiceRegistration) : Registry :=
  r.filter (fun g => g.ID ≠ reg.ID) ++ [reg]

/-- The ids and addresses of the services registered under `name`. -/
def Registry.services (r : Registry) (name : String) : List (String × String) :=
  (r.filter fun g => g.Name = name).map fun g => (g.ID, g.Address)

/-- A health answer `view` reports the registry faithfully: for every table and name it lists
exactly the services of that name, in any order and with any health status. -/
def Serves (view : Registry → String → List api.AgentServiceChecksInfo) : Prop :=
  ∀ (r : Registry) (name : String),
    ((view r name).map fun i => (i.Service.ID, i.Service.Address)).Perm (r.services name)

/-- The health answer that lists the services in table order, all passing. -/
def Registry.health (r : Registry) (name : String) : List api.AgentServiceChecksInfo :=
  (r.filter fun g => g.Name = name).map fun g => ⟨⟨g.ID, g.Meta, g.Address⟩, "passing"⟩

/-- The environment of an instance on host `host` that talks to a working agent holding the
table `r`: every lock, health and registration call succeeds. -/
def Registry.env (view : Registry → String → List api.AgentServiceChecksInfo) (r : Registry)
    (host : String) : Env :=
  { Hostname := .ok host
    Lock := fun _ => none
    Unlock := none
    AgentHealthServiceByName := fun name => .ok (view r name)
    ServiceRegister := fun _ => none }

/-- An instance about to register: its hostname and its `Consul` value. -/
structure Node where
  host : String
  c : Consul
  deriving DecidableEq, Repr

/-- The instances run `Register` one after another against the same agent; each call sees
the table left by the calls before it.  Returns the final table and the outcomes in order. -/
def registerAll (view : Registry → String → List api.AgentServiceChecksInfo) :
    Registry → List Node → Registry × List Outcome
  | r, [] => (r, [])
  | r, nd :: rest =>
    let out := Register (Registry.env view r nd.host) nd.c
    let next := registerAll view (out.calls.foldl Registry.ServiceRegister r) rest
    (next.1, out :: next.2)

/-! ## The watch handler -/

/-- A channel of `struct{}` ticks: the number of buffered ticks, the capacity, and the number
of receivers blocked on the channel (which is zero while a tick is buffered). -/
structure Chan where
  len : Nat
  cap : Nat
  recvq : Nat
  deriving DecidableEq, Repr

/-- A send can proceed at once: a receiver is waiting or the buffer has a free slot. -/
def Chan.hasRoom (ch : Chan) : Bool := decide (0 < ch.recvq ∨ ch.len < ch.cap)

/-- The state the handler closes over: `lastIdx` and the channel. -/
structure WatchState where
  lastIdx : Nat
  ch : Chan
  deriving DecidableEq, Repr

/-- What an invocation of the handler did with the channel. -/
inductive Send where
  | skipped
  | enqueued
  | dropped
  deriving DecidableEq, Repr

/-- The statement `select { case ch <- struct{}{}: default: }`: the tick is handed to a waiting
receiver or buffered when there is room, otherwise the default branch runs. -/
def trySend (ch : Chan) : Chan × Send :=
  if 0 < ch.recvq then ({ ch with recvq := ch.recvq - 1 }, Send.enqueued)
  else if ch.len < ch.cap then ({ ch with len := ch.len + 1 }, Send.enqueued)
  else (ch, Send.dropped)

/-- A receive on the channel: it takes a buffered tick, or blocks until one is sent. -/
def recv (ch : Chan) : Chan :=
  if 0 < ch.len then { ch with len := ch.len - 1 } else { ch with recvq := ch.recvq + 1 }

/-- Embedding of `wp.Handler` in `Consul.Watch` (consul.go, lines 229-238). -/
def Handler (s : WatchState) (idx : Nat) : WatchState × Send :=
  if s.lastIdx ≠ 0 then
    ({ lastIdx := idx, ch := (trySend s.ch).1 }, (trySend s.ch).2)
  else ({ lastIdx := idx, ch := s.ch }, Send.skipped)

/-- What happens around the handler: the watch plan invokes it with an index, or a
receiver starts a receive on the channel. -/
inductive WatchEvent where
  | invoke (idx : Nat)
  | receive
  deriving DecidableEq, Repr

/-- The handler run over a sequence of events; returns the final state and what each
invocation did, in order. -/
def watchRun : WatchState → List WatchEvent → WatchState × List Send
  | s, [] => (s, [])
  | s, WatchEvent.invoke idx :: es =>
    ((watchRun (Handler s idx).1 es).1, (Handler s idx).2 :: (watchRun (Handler s idx).1 es).2)
  | s, WatchEvent.receive :: es => watchRun { s with ch := recv s.ch } es

/-- The invocations among the events. -/
def invocations (es : List WatchEvent) : Nat :=
  (es.filter fun e => e ≠ WatchEvent.receive).length

/-! ## TLS settings of the client -/

/-- The secret store as `getTLSConfig` sees it: `ParseRemoteSecretInfo` (`none` when its
third result is false), `GetSecretEngine` by type, and the engine's `GetSecrets` by path.
The `secret` package is not among the sources, so its functions are parameters. -/
structure Secrets where
  ParseRemoteSecretInfo : String → Option (String × String)
  GetSecretEngine : String → Except Error (String → Except Error (String → Option (List Nat)))

/-- Embedding of `getTLSConfig` (consul.go, lines 257-291). -/
def getTLSConfig (sec : Secrets) (cfg : consulConfig) : api.TLSConfig × Option Error :=
  match sec.ParseRemoteSecretInfo cfg.TLSConfig.CertFile with
  | some (sType, path) =>
    match sec.GetSecretEngine sType with
    | .error _ => ({}, none)
    | .ok engine =>
      match engine path with
      | .error _ => ({}, none)
      | .ok secrets =>
        ({ CertPEM := (secrets "cert").getD []
           KeyPEM := (secrets "key").getD []
           CAPem := match secrets "ca" with
             | some v => v
             | none => []
           InsecureSkipVerify := cfg.TLSConfig.InsecureSkipVerify }, none)
  | none =>
    ({ CertFile := cfg.TLSConfig.CertFile
       KeyFile := cfg.TLSConfig.KeyFile
       CAFile := cfg.TLSConfig.CAFile
       InsecureSkipVerify := cfg.TLSConfig.InsecureSkipVerify }, none)

/-- Splits at the first occurrence of `::`. -/
def splitRef : List Char → Option (List Char × List Char)
  | [] => none
  | c :: cs =>
    if c = ':' ∧ cs.head? = some ':' then some ([], cs.tail)
    else (splitRef cs).map fun p => (c :: p.1, p.2)

/-- Modelled from the spec: `secret.ParseRemoteSecretInfo` is not among the sources.  Section
4.A: a remote reference is a string of the shape `<engine>::<path>`; any other string is
"not a remote reference" and is treated as a filesystem path. -/
def ParseRemoteSecretInfo (key : String) : Option (String × String) :=
  (splitRef key.data).map fun p => (String.mk p.1, String.mk p.2)

/-- A secret store with one engine, `vault`, holding one secret at `secret/panoptes/tls`. -/
def vaultStore : Secrets :=
  { ParseRemoteSecretInfo := ParseRemoteSecretInfo
    GetSecretEngine := fun t =>
      if t = "vault" then
        .ok fun path =>
          if path = "secret/panoptes/tls" then
            .ok fun k => if k = "cert" then some [1] else if k = "key" then some [2] else none
          else .error "secret not found"
      else .error "unknown secret engine" }

/-- A secret store whose engines cannot be reached. -/
def downStore : Secrets :=
  { ParseRemoteSecretInfo := ParseRemoteSecretInfo
    GetSecretEngine := fun _ => .error "secret store unavailable" }

/-! ## Sample environments -/

/-- An agent on `host1` that grants the lock and reports `known`, and answers every
registration with `answer`. -/
def sampleEnv (known : List api.AgentServiceChecksInfo) (answer : Option Error) : Env :=
  { Hostname := .ok "host1"
    Lock := fun _ => none
    Unlock := none
    AgentHealthServiceByName := fun _ => .ok known
    ServiceRegister := fun _ => answer }

/-! ## Facts about `strconv` -/

theorem digitVal_digitChar (d : Nat) (h : d < 10) : digitVal (digitChar d) = some d := by
  interval_cases d <;> decide

theorem digitChar_ne_sign (d : Nat) : digitChar d ≠ '-' ∧ digitChar d ≠ '+' := by
  unfold digitChar
  split <;> decide

theorem parseDigits_append (acc : Nat) (xs : List Char) (c : Char) :
    parseDigits acc (xs ++ [c]) =
      (parseDigits acc xs).bind fun v => (digitVal c).map fun d => v * 10 + d := by
  induction xs generalizing acc with
  | nil =>
    simp only [List.nil_append, parseDigits]
    cases digitVal c <;> simp
  | cons x xs ih =>
    simp only [List.cons_append, parseDigits]
    cases digitVal x with
    | none => simp
    | some d => simpa using ih (acc * 10 + d)

theorem parseDigits_formatDecimal (fuel n : Nat) (h : n < fuel) :
    parseDigits 0 (formatDecimal fuel n) = some n := by
  induction fuel generalizing n with
  | zero => omega
  | succ fuel ih =>
    unfold formatDecimal
    split
    · rename_i hn
      simp [parseDigits, digitVal_digitChar n hn]
    · rw [parseDigits_append, ih (n / 10) (by omega),
        digitVal_digitChar (n % 10) (Nat.mod_lt _ (by decide))]
      simp only [Option.some_bind, Option.map_some']
      congr 1
      omega

theorem formatDecimal_head (fuel n : Nat) :
    ∃ d cs, formatDecimal (fuel + 1) n = digitChar d :: cs := by
  induction fuel generalizing n with
  | zero =>
    unfold formatDecimal
    split
    · exact ⟨n, [], rfl⟩
    · exact ⟨n % 10, [], by simp [formatDecimal]⟩
  | succ fuel ih =>
    unfold formatDecimal
    split
    · exact ⟨n, [], rfl⟩
    · obtain ⟨d, cs, h⟩ := ih (n / 10)
      exact ⟨d, cs ++ [digitChar (n % 10)], by rw [h]; rfl⟩

/-- Parsing with `Atoi` inverts `Itoa` on the non-negative `int` range. -/
theorem Atoi_Itoa_natCast (n : Nat) (h : n < 2 ^ 63) : Atoi (Itoa (n : Int)) = some (n : Int) := by
  have hp := parseDigits_formatDecimal (n + 1) n (Nat.lt_succ_self n)
  obtain ⟨d, cs, hd⟩ := formatDecimal_head n n
  have hs := digitChar_ne_sign d
  show Atoi (String.mk (formatDecimal (n + 1) n)) = some (n : Int)
  unfold Atoi
  simp only [hd]
  rw [if_neg hs.1, if_neg hs.2, ← hd, hp]
  have h2 : n < 9223372036854775808 := by simpa using h
  simp [h2]

/-- Distinct natural numbers have distinct decimal renderings. -/
theorem Itoa_natCast_inj (a b : Nat) (h : Itoa (a : Int) = Itoa (b : Int)) : a = b := by
  have ha := parseDigits_formatDecimal (a + 1) a (Nat.lt_succ_self a)
  have hb := parseDigits_formatDecimal (b + 1) b (Nat.lt_succ_self b)
  have h' : formatDecimal (a + 1) a = formatDecimal (b + 1) b := by
    have := congrArg String.data h
    exact this
  rw [h'] at ha
  exact Option.some.inj (ha.symm.trans hb)

/-! ## Facts about `getID` -/

/-- The number whose rendering `getID` returns. -/
theorem getID_eq (ids : List Int) :
    getID ids = Itoa (((getIDLoop 0 (sortInts ids)).getD ids.length : Nat) : Int) := by
  unfold getID
  split
  · rename_i h
    have h0 : ids = [] := List.length_eq_zero.mp (by omega)
    subst h0
    rfl
  · cases getIDLoop 0 (sortInts ids) <;> rfl

/-- On a strictly ascending list whose elements are at least `i`, the loop started at `i`
stops at the least number from `i` on that is missing from the list. -/
theorem getIDLoop_spec (s : List Int) :
    ∀ i : Nat, s.Sorted (fun a b => a < b) → (∀ x ∈ s, (i : Int) ≤ x) →
      i ≤ (getIDLoop i s).getD (i + s.length) ∧
      (getIDLoop i s).getD (i + s.length) ≤ i + s.length ∧
      (((getIDLoop i s).getD (i + s.length) : Nat) : Int) ∉ s ∧
      ∀ k : Nat, i ≤ k → k < (getIDLoop i s).getD (i + s.length) → (k : Int) ∈ s := by
  induction s with
  | nil =>
    intro i _ _
    simp [getIDLoop]
  | cons id rest ih =>
    intro i hs hlo
    have hrest := List.rel_of_sorted_cons hs
    have hsr := List.Sorted.of_cons hs
    have hid : (i : Int) ≤ id := hlo id (List.mem_cons_self _ _)
    by_cases hne : (i : Int) ≠ id
    · simp only [getIDLoop, if_pos hne, Option.getD_some]
      refine ⟨le_refl _, by omega, ?_, fun k h1 h2 => by omega⟩
      intro hmem
      rcases List.mem_cons.mp hmem with h | h
      · exact hne h
      · have := hrest _ h
        omega
    · have heq : (i : Int) = id := not_not.mp hne
      have hlo' : ∀ x ∈ rest, ((i + 1 : Nat) : Int) ≤ x := by
        intro x hx
        have := hrest x hx
        push_cast
        omega
      obtain ⟨h1, h2, h3, h4⟩ := ih (i + 1) hsr hlo'
      have hlen : i + 1 + rest.length = i + (id :: rest).length := by
        simp only [List.length_cons]; omega
      simp only [getIDLoop, if_neg hne]
      rw [← hlen]
      refine ⟨by omega, h2, ?_, ?_⟩
      · intro hmem
        rcases List.mem_cons.mp hmem with h | h
        · omega
        · exact h3 h
      · intro k hk1 hk2
        by_cases hki : k = i
        · subst hki
          rw [heq]
          exact List.mem_cons_self _ _
        · exact List.mem_cons_of_mem _ (h4 k (by omega) hk2)

/-- On pairwise-distinct non-negative ids, the number rendered by `getID` is at most the
length, is missing from the ids, and every smaller natural number is among the ids. -/
theorem getID_slot_spec (ids : List Int) (hnd : ids.Nodup) (hnn : ∀ x ∈ ids, 0 ≤ x) :
    (getIDLoop 0 (sortInts ids)).getD ids.length ≤ ids.length ∧
    (((getIDLoop 0 (sortInts ids)).getD ids.length : Nat) : Int) ∉ ids ∧
    ∀ k : Nat, k < (getIDLoop 0 (sortInts ids)).getD ids.length → (k : Int) ∈ ids := by
  have hperm : (sortInts ids).Perm ids := List.perm_insertionSort _ ids
  have hsorted : (sortInts ids).Sorted (fun a b => a < b) :=
    (List.sorted_insertionSort (fun a b : Int => a ≤ b) ids).lt_of_le (hperm.nodup_iff.mpr hnd)
  have hlo : ∀ x ∈ sortInts ids, ((0 : Nat) : Int) ≤ x := fun x hx => by
    simpa using hnn x (hperm.mem_iff.mp hx)
  have hlen : (sortInts ids).length = ids.length := hperm.length_eq
  obtain ⟨_, h2, h3, h4⟩ := getIDLoop_spec (sortInts ids) 0 hsorted hlo
  rw [Nat.zero_add, hlen] at h2 h3 h4
  exact ⟨h2, fun h => h3 (hperm.mem_iff.mpr h),
    fun k hk => hperm.mem_iff.mp (h4 k (Nat.zero_le k) hk)⟩

/-- For ids that are exactly the numbers below `k`, in any order, `getID` renders `k`. -/
theorem getID_of_perm_range (ids : List Int) (k : Nat)
    (h : ids.Perm ((List.range k).map fun j : Nat => (j : Int))) : getID ids = Itoa (k : Int) := by
  have hnd : ids.Nodup :=
    h.nodup_iff.mpr ((List.nodup_range k).map fun a b hab => by exact_mod_cast hab)
  have hmem : ∀ x : Int, x ∈ ids ↔ ∃ j : Nat, j < k ∧ (j : Int) = x := by
    intro x
    rw [h.mem_iff]
    simp
  have hnn : ∀ x ∈ ids, 0 ≤ x := by
    intro x hx
    obtain ⟨j, _, rfl⟩ := (hmem x).mp hx
    exact Int.ofNat_nonneg j
  have hlen : ids.length = k := by simpa using h.length_eq
  obtain ⟨h1, h2, _⟩ := getID_slot_spec ids hnd hnn
  rw [getID_eq]
  congr 2
  rw [hlen] at h1 h2 ⊢
  by_contra hne
  exact h2 ((hmem _).mpr ⟨_, by omega, rfl⟩)

/-! ## C1, C8: the id chosen by `getID` -/

/-- C1 (as stated, refuted): `getID` does not return the lowest missing non-negative integer
for every list of integers.  On `[0, 0, 1]` it returns the rendering of `1`, and on `[-1, 0]`
the rendering of `0`; each occurs in its list, so no number that is missing from the list has
the returned rendering. -/
theorem getID_duplicate_ids_not_lowest_missing :
    getID [0, 0, 1] = Itoa 1 ∧ (1 : Int) ∈ ([0, 0, 1] : List Int) ∧
    getID [-1, 0] = Itoa 0 ∧ (0 : Int) ∈ ([-1, 0] : List Int) ∧
    ¬ ∀ ids : List Int, ∃ n : Nat, getID ids = Itoa (n : Int) ∧ (n : Int) ∉ ids ∧
        ∀ m : Nat, (m : Int) ∉ ids → n ≤ m := by
  refine ⟨by decide, by decide, by decide, by decide, fun h => ?_⟩
  obtain ⟨n, hn, hfresh, _⟩ := h [0, 0, 1]
  have h1 : getID [0, 0, 1] = Itoa ((1 : Nat) : Int) := by decide
  have : n = 1 := Itoa_natCast_inj n 1 (hn.symm.trans h1)
  subst this
  exact hfresh (by decide)

/-- C1 (amended): for every list of pairwise-distinct non-negative integers, in any order,
`getID` returns the decimal string of the lowest non-negative integer that does not occur in
the list, which is the length of the list when no gap is found; in particular
`[] → 0`, `[0] → 1`, `[0,2] → 1`, `[0,1,2] → 3`. -/
theorem getID_lowest_missing (ids : List Int) (hnd : ids.Nodup) (hnn : ∀ x ∈ ids, 0 ≤ x) :
    (∃ n : Nat, getID ids = Itoa (n : Int) ∧ (n : Int) ∉ ids ∧
      (∀ m : Nat, (m : Int) ∉ ids → n ≤ m) ∧
      ((∀ k : Nat, k < ids.length → (k : Int) ∈ ids) → n = ids.length)) ∧
    getID [] = "0" ∧ getID [0] = "1" ∧ getID [0, 2] = "1" ∧ getID [0, 1, 2] = "3" := by
  obtain ⟨h1, h2, h3⟩ := getID_slot_spec ids hnd hnn
  refine ⟨⟨_, getID_eq ids, h2, ?_, ?_⟩, by decide, by decide, by decide, by decide⟩
  · intro m hm
    by_contra hlt
    exact hm (h3 m (by omega))
  · intro hall
    by_contra hne
    exact h2 (hall _ (by omega))

/-- C1 (amended), at the ids `[2, 0]`. -/
theorem getID_lowest_missing_witness :
    (∃ n : Nat, getID [2, 0] = Itoa (n : Int) ∧ (n : Int) ∉ ([2, 0] : List Int) ∧
      (∀ m : Nat, (m : Int) ∉ ([2, 0] : List Int) → n ≤ m) ∧
      ((∀ k : Nat, k < ([2, 0] : List Int).length → (k : Int) ∈ ([2, 0] : List Int)) →
        n = ([2, 0] : List Int).length)) ∧
    getID [] = "0" ∧ getID [0] = "1" ∧ getID [0, 2] = "1" ∧ getID [0, 1, 2] = "3" :=
  getID_lowest_missing [2, 0] (by decide) (by decide)

/-- C8: for pairwise-distinct non-negative ids, in any order, the integer `n` that `getID`
denotes (the string is the rendering of `n`, and parses back to `n` while the list length is a
Go `int`) is fresh and minimal: `n` is not among the ids, every smaller natural number is,
and `0 ≤ n ≤ len(ids)`. -/
theorem getID_fresh_minimal (ids : List Int) (hnd : ids.Nodup) (hnn : ∀ x ∈ ids, 0 ≤ x) :
    ∃ n : Int, getID ids = Itoa n ∧ (ids.length < 2 ^ 63 → Atoi (getID ids) = some n) ∧
      n ∉ ids ∧ (∀ k : Nat, (k : Int) < n → (k : Int) ∈ ids) ∧
      0 ≤ n ∧ n ≤ (ids.length : Int) := by
  obtain ⟨h1, h2, h3⟩ := getID_slot_spec ids hnd hnn
  refine ⟨_, getID_eq ids, ?_, h2, ?_, Int.ofNat_nonneg _, by exact_mod_cast h1⟩
  · intro hlen
    rw [getID_eq]
    exact Atoi_Itoa_natCast _ (lt_of_le_of_lt h1 hlen)
  · intro k hk
    exact h3 k (by exact_mod_cast hk)

/-- C8, at the ids `[3, 1, 0]`: the id denoted is `2`. -/
theorem getID_fresh_minimal_witness :
    ∃ n : Int, getID [3, 1, 0] = Itoa n ∧
      (([3, 1, 0] : List Int).length < 2 ^ 63 → Atoi (getID [3, 1, 0]) = some n) ∧
      n ∉ ([3, 1, 0] : List Int) ∧
      (∀ k : Nat, (k : Int) < n → (k : Int) ∈ ([3, 1, 0] : List Int)) ∧
      0 ≤ n ∧ n ≤ (([3, 1, 0] : List Int).length : Int) :=
  getID_fresh_minimal [3, 1, 0] (by decide) (by decide)

/-! ## C5, C6, C7: `getTLSConfig` -/

/-- C5 (as stated, refuted): a remote reference in `KeyFile` alone does not make
`getTLSConfig` use PEM material.  With `CertFile` a filesystem path and `KeyFile` the
reference `vault::secret/panoptes/tls` (engine and fetch succeeding), the result carries the
two strings as file paths and no PEM bytes. -/
theorem getTLSConfig_keyFile_reference_passed_through :
    (∃ engine secrets, vaultStore.ParseRemoteSecretInfo "vault::secret/panoptes/tls" =
        some ("vault", "secret/panoptes/tls") ∧
      vaultStore.GetSecretEngine "vault" = .ok engine ∧
      engine "secret/panoptes/tls" = .ok secrets ∧ secrets "key" = some [2]) ∧
    getTLSConfig vaultStore
        { TLSConfig := { CertFile := "/etc/certs/cert.file",
                         KeyFile := "vault::secret/panoptes/tls" } } =
      ({ CertFile := "/etc/certs/cert.file", KeyFile := "vault::secret/panoptes/tls",
         CertPEM := [], KeyPEM := [], CAPem := [] }, none) := by
  refine ⟨⟨_, _, by decide, rfl, rfl, rfl⟩, by decide⟩

/-- C5 (amended): for every consulConfig whose `TLSConfig.CertFile` parses as a remote secret
reference, when the secret engine and the fetch succeed, `getTLSConfig` returns a nil error
and a TLS configuration built from the fetched secrets (`CertPEM`, `KeyPEM`, `CAPem` from the
entries `cert`, `key`, `ca`) with `InsecureSkipVerify` passed through and no file path set. -/
theorem getTLSConfig_remote (sec : Secrets) (cfg : consulConfig) (sType path : String)
    (engine : String → Except Error (String → Option (List Nat)))
    (secrets : String → Option (List Nat))
    (hparse : sec.ParseRemoteSecretInfo cfg.TLSConfig.CertFile = some (sType, path))
    (hengine : sec.GetSecretEngine sType = .ok engine)
    (hfetch : engine path = .ok secrets) :
    getTLSConfig sec cfg =
      ({ CertPEM := (secrets "cert").getD [], KeyPEM := (secrets "key").getD [],
         CAPem := (secrets "ca").getD [],
         CertFile := "", KeyFile := "", CAFile := "",
         InsecureSkipVerify := cfg.TLSConfig.InsecureSkipVerify }, none) := by
  unfold getTLSConfig
  simp only [hparse, hengine, hfetch]
  cases secrets "ca" <;> rfl

/-- C5 (amended), at the reference `vault::secret/panoptes/tls` in `CertFile`. -/
theorem getTLSConfig_remote_witness :
    getTLSConfig vaultStore
        { TLSConfig := { CertFile := "vault::secret/panoptes/tls", KeyFile := "/etc/key.pem",
                         InsecureSkipVerify := true } } =
      ({ CertPEM := [1], KeyPEM := [2], CAPem := [], CertFile := "", KeyFile := "", CAFile := "",
         InsecureSkipVerify := true }, none) :=
  getTLSConfig_remote vaultStore
    { TLSConfig := { CertFile := "vault::secret/panoptes/tls", KeyFile := "/etc/key.pem",
                     InsecureSkipVerify := true } }
    "vault" "secret/panoptes/tls"
    (fun path =>
      if path = "secret/panoptes/tls" then
        .ok fun k => if k = "cert" then some [1] else if k = "key" then some [2] else none
      else .error "secret not found")
    (fun k => if k = "cert" then some [1] else if k = "key" then some [2] else none)
    (by decide) rfl rfl

/-- C6: when no TLS field parses as a remote secret reference, `getTLSConfig` returns a nil
error and a configuration whose `CertFile`, `KeyFile`, `CAFile` and `InsecureSkipVerify` are
the input's and whose PEM fields are empty; with the reference syntax of section 4.A, the
zero consulConfig yields the zero `api.TLSConfig`, and `CertFile = /etc/certs/cert.file` with
`InsecureSkipVerify = true` is passed through unchanged. -/
theorem getTLSConfig_local (sec : Secrets) (cfg : consulConfig)
    (hcert : sec.ParseRemoteSecretInfo cfg.TLSConfig.CertFile = none)
    (_hkey : sec.ParseRemoteSecretInfo cfg.TLSConfig.KeyFile = none)
    (_hca : sec.ParseRemoteSecretInfo cfg.TLSConfig.CAFile = none) :
    (getTLSConfig sec cfg =
      ({ CertFile := cfg.TLSConfig.CertFile, KeyFile := cfg.TLSConfig.KeyFile,
         CAFile := cfg.TLSConfig.CAFile,
         InsecureSkipVerify := cfg.TLSConfig.InsecureSkipVerify,
         CertPEM := [], KeyPEM := [], CAPem := [] }, none)) ∧
    (∀ s : Secrets, s.ParseRemoteSecretInfo = ParseRemoteSecretInfo →
      getTLSConfig s {} = ({}, none) ∧
      getTLSConfig s
          { TLSConfig := { CertFile := "/etc/certs/cert.file", InsecureSkipVerify := true } } =
        ({ CertFile := "/etc/certs/cert.file", InsecureSkipVerify := true }, none)) := by
  refine ⟨?_, fun s hs => ⟨?_, ?_⟩⟩
  · unfold getTLSConfig
    simp only [hcert]
  · have h : s.ParseRemoteSecretInfo "" = none := by rw [hs]; decide
    unfold getTLSConfig
    simp only [h]
  · have h : s.ParseRemoteSecretInfo "/etc/certs/cert.file" = none := by rw [hs]; decide
    unfold getTLSConfig
    simp only [h]

/-- C6, at `CertFile = /etc/certs/cert.file`, `KeyFile = /etc/certs/key.file`. -/
theorem getTLSConfig_local_witness :
    (getTLSConfig vaultStore
        { TLSConfig := { CertFile := "/etc/certs/cert.file", KeyFile := "/etc/certs/key.file",
                         InsecureSkipVerify := true } } =
      ({ CertFile := "/etc/certs/cert.file", KeyFile := "/etc/certs/key.file", CAFile := "",
         InsecureSkipVerify := true, CertPEM := [], KeyPEM := [], CAPem := [] }, none)) ∧
    (∀ s : Secrets, s.ParseRemoteSecretInfo = ParseRemoteSecretInfo →
      getTLSConfig s {} = ({}, none) ∧
      getTLSConfig s
          { TLSConfig := { CertFile := "/etc/certs/cert.file", InsecureSkipVerify := true } } =
        ({ CertFile := "/etc/certs/cert.file", InsecureSkipVerify := true }, none)) :=
  getTLSConfig_local vaultStore
    { TLSConfig := { CertFile := "/etc/certs/cert.file", KeyFile := "/etc/certs/key.file",
                     InsecureSkipVerify := true } }
    (by decide) (by decide) (by decide)

/-- C7: `getTLSConfig` never returns a non-nil error; when `CertFile` is a remote secret
reference and obtaining the secret engine fails or fetching the secrets fails, it returns
the zero-valued TLS configuration together with a nil error. -/
theorem getTLSConfig_outage (sec : Secrets) (cfg : consulConfig) (sType path : String)
    (hparse : sec.ParseRemoteSecretInfo cfg.TLSConfig.CertFile = some (sType, path))
    (hfail : (∃ e, sec.GetSecretEngine sType = .error e) ∨
      ∃ engine e, sec.GetSecretEngine sType = .ok engine ∧ engine path = .error e) :
    getTLSConfig sec cfg = ({}, none) ∧
    ∀ (s : Secrets) (k : consulConfig), (getTLSConfig s k).2 = none := by
  constructor
  · unfold getTLSConfig
    rcases hfail with ⟨e, he⟩ | ⟨engine, e, he, hf⟩
    · simp only [hparse, he]
    · simp only [hparse, he, hf]
  · intro s k
    unfold getTLSConfig
    split
    · split
      · rfl
      · split <;> rfl
    · rfl

/-- C7, at a store whose engines cannot be reached. -/
theorem getTLSConfig_outage_witness :
    getTLSConfig downStore { TLSConfig := { CertFile := "vault::secret/panoptes/tls" } } =
      ({}, none) ∧
    ∀ (s : Secrets) (k : consulConfig), (getTLSConfig s k).2 = none :=
  getTLSConfig_outage downStore { TLSConfig := { CertFile := "vault::secret/panoptes/tls" } }
    "vault" "secret/panoptes/tls" (by decide) (Or.inl ⟨"secret store unavailable", rfl⟩)

/-! ## C10: the watch handler -/

theorem invocations_invoke (idx : Nat) (es : List WatchEvent) :
    invocations (WatchEvent.invoke idx :: es) = invocations es + 1 := by
  simp [invocations]

theorem invocations_receive (es : List WatchEvent) :
    invocations (WatchEvent.receive :: es) = invocations es := by
  simp [invocations]

/-- Every invocation has exactly one recorded effect. -/
theorem watchRun_length (es : List WatchEvent) :
    ∀ s : WatchState, (watchRun s es).2.length = invocations es := by
  induction es with
  | nil => intro s; rfl
  | cons e es ih =>
    intro s
    cases e with
    | invoke idx => simp [watchRun, invocations_invoke, ih]
    | receive => simp [watchRun, invocations_receive, ih]

/-- From any state, at most one tick is enqueued per invocation. -/
theorem watchRun_enqueued_le (es : List WatchEvent) :
    ∀ s : WatchState, (watchRun s es).2.count Send.enqueued ≤ invocations es := by
  intro s
  rw [← watchRun_length es s]
  exact List.count_le_length _ _

/-- From a state with `lastIdx = 0`, the first invocation enqueues nothing. -/
theorem watchRun_enqueued_lt (es : List WatchEvent) :
    ∀ ch : Chan, (watchRun ⟨0, ch⟩ es).2.count Send.enqueued ≤ invocations es - 1 := by
  induction es with
  | nil => intro ch; simp [watchRun]
  | cons e es ih =>
    intro ch
    cases e with
    | invoke idx =>
      have h := watchRun_enqueued_le es (Handler ⟨0, ch⟩ idx).1
      have hs : (Handler ⟨0, ch⟩ idx).2 = Send.skipped := rfl
      simp only [watchRun, invocations_invoke, hs]
      rw [List.count_cons_of_ne (by decide)]
      simpa using h
    | receive =>
      simp only [watchRun, invocations_receive]
      exact ih _

/-- C10: the handler as a step function on `(lastIdx, channel)`.  With `lastIdx = 0` (the
first invocation) it sends nothing; with `lastIdx ≠ 0` it makes one non-blocking send, which
enqueues a tick when the channel has room and drops it when the channel is full; in every
case it returns, with `lastIdx` set to the index it was given, so an invocation sends exactly
when the one before it had a non-zero index.  Over any run from `lastIdx = 0`, with receives
in between, each invocation has one effect and the number of ticks enqueued is at most the
number of invocations minus one. -/
theorem Handler_step_and_tick_bound (s : WatchState) (idx : Nat) (ch : Chan)
    (es : List WatchEvent) :
    Handler ⟨0, ch⟩ idx = (⟨idx, ch⟩, Send.skipped) ∧
    (s.lastIdx ≠ 0 → s.ch.hasRoom = true →
      (Handler s idx).2 = Send.enqueued ∧
      (Handler s idx).1.ch.len + s.ch.recvq = s.ch.len + 1 + (Handler s idx).1.ch.recvq) ∧
    (s.lastIdx ≠ 0 → s.ch.hasRoom = false → Handler s idx = (⟨idx, s.ch⟩, Send.dropped)) ∧
    (Handler s idx).1.lastIdx = idx ∧
    ((Handler s idx).2 = Send.skipped ↔ s.lastIdx = 0) ∧
    (watchRun ⟨0, ch⟩ es).2.length = invocations es ∧
    (watchRun ⟨0, ch⟩ es).2.count Send.enqueued ≤ invocations es - 1 := by
  refine ⟨rfl, ?_, ?_, ?_, ?_, watchRun_length es _, watchRun_enqueued_lt es ch⟩
  · intro h0 hroom
    simp only [Chan.hasRoom, decide_eq_true_eq] at hroom
    unfold Handler trySend
    by_cases hq : 0 < s.ch.recvq
    · simp only [h0, hq, ne_eq, not_false_eq_true, if_true, true_and]
      omega
    · have hl : s.ch.len < s.ch.cap := by omega
      simp only [h0, hq, hl, ne_eq, not_false_eq_true, if_true, if_false, true_and]
  · intro h0 hfull
    simp only [Chan.hasRoom, decide_eq_false_iff_not, not_or] at hfull
    simp [Handler, trySend, h0, hfull.1, hfull.2]
  · unfold Handler
    split <;> rfl
  · unfold Handler trySend
    by_cases h0 : s.lastIdx = 0
    · simp [h0]
    · by_cases hq : 0 < s.ch.recvq
      · simp [h0, hq]
      · by_cases hroom : s.ch.len < s.ch.cap <;> simp [h0, hq, hroom]

/-- C10, on a channel of capacity one: snapshot, two changes, a receive, another change; and
one step from `lastIdx = 5` with room in the channel. -/
theorem Handler_step_and_tick_bound_witness :
    (watchRun ⟨0, ⟨0, 1, 0⟩⟩ [.invoke 5, .invoke 6, .invoke 7, .receive, .invoke 8]).2 =
      [Send.skipped, Send.enqueued, Send.dropped, Send.enqueued] ∧
    (watchRun ⟨0, ⟨0, 1, 0⟩⟩
        [.invoke 5, .invoke 6, .invoke 7, .receive, .invoke 8]).2.count Send.enqueued ≤
      invocations [.invoke 5, .invoke 6, .invoke 7, .receive, .invoke 8] - 1 ∧
    (Handler ⟨5, ⟨0, 1, 0⟩⟩ 7).2 = Send.enqueued :=
  ⟨by decide,
   (Handler_step_and_tick_bound ⟨5, ⟨0, 1, 0⟩⟩ 7 ⟨0, 1, 0⟩
    [.invoke 5, .invoke 6, .invoke 7, .receive, .invoke 8]).2.2.2.2.2.2,
   ((Handler_step_and_tick_bound ⟨5, ⟨0, 1, 0⟩⟩ 7 ⟨0, 1, 0⟩ []).2.1
    (by decide) (by decide)).1⟩

/-! ## C9: the published id when `Register` fails -/

/-- When the lock or the listing fails, `Register` returns that error and leaves the `Consul`
value as it was. -/
theorem Register_early_failure (env : Env) (c : Consul) (e : Error) :
    (env.Lock "panoptes_global_lock" = some e →
      (Register env c).err = some e ∧ (Register env c).c = c) ∧
    (env.Lock "panoptes_global_lock" = none → GetInstances env = .error e →
      (Register env c).err = some e ∧ (Register env c).c = c) := by
  constructor
  · intro h
    simp [Register, h]
  · intro h hg
    unfold Register
    simp only [h, hg]
    unfold ulock
    split <;> exact ⟨rfl, rfl⟩

/-- C9 (the defect): a fresh instance (`id` empty) registers against an agent with no
panoptes service; the lock and the listing succeed and the agent refuses the registration.
`Register` returns the error, yet the `id` field has become `0`.  In the recovery branch,
under the same refusal, the `id` field is left as it was. -/
theorem Register_refused_new_node_publishes_id :
    (Register (sampleEnv [] (some "agent unavailable")) {}).err = some "agent unavailable" ∧
    ({} : Consul).id = "" ∧
    (Register (sampleEnv [] (some "agent unavailable")) {}).c.id = "0" ∧
    (Register (sampleEnv [⟨⟨"2", [], "host1"⟩, "passing"⟩] (some "agent unavailable")) {}).err =
      some "agent unavailable" ∧
    (Register (sampleEnv [⟨⟨"2", [], "host1"⟩, "passing"⟩] (some "agent unavailable")) {}).c.id =
      "" := by
  refine ⟨by decide, rfl, by decide, by decide, by decide⟩

/-! ## Facts about `path.Join` -/

theorem takeWhile_until_slash (a t : List Char) (h : ∀ x ∈ a, x ≠ '/') :
    (a ++ '/' :: t).takeWhile (fun x => x ≠ '/') = a ∧
    (a ++ '/' :: t).dropWhile (fun x => x ≠ '/') = '/' :: t := by
  induction a with
  | nil => simp
  | cons c cs ih =>
    have hc : c ≠ '/' := h c (List.mem_cons_self _ _)
    have := ih fun x hx => h x (List.mem_cons_of_mem _ hx)
    have hd : decide (c ≠ '/') = true := decide_eq_true hc
    simp only [List.cons_append, List.takeWhile_cons, List.dropWhile_cons, hd, if_true, this,
      and_self]

theorem cleanLoop_dotdot (n : Nat) :
    cleanLoop false (n + 4) (['.', '.'] ++ '/' :: "healthcheck".data) [] 0 =
      "healthcheck".data.reverse ++ '/' :: ['.', '.'] := by
  simp [cleanLoop]

theorem cleanLoop_single_elem (a : List Char) (n : Nat) (hne : a ≠ [])
    (hns : ∀ x ∈ a, x ≠ '/') (hdot : a ≠ ['.']) :
    cleanLoop false (n + 4) (a ++ '/' :: "healthcheck".data) [] 0 =
      "healthcheck".data.reverse ++ '/' :: a.reverse := by
  by_cases hdd : a = ['.', '.']
  · subst hdd
    exact cleanLoop_dotdot n
  · obtain ⟨c, cs, rfl⟩ := List.exists_cons_of_ne_nil hne
    have hc : c ≠ '/' := hns c (List.mem_cons_self _ _)
    have h2 : ¬ (c = '.' ∧ (cs ++ '/' :: "healthcheck".data = [] ∨
        (cs ++ '/' :: "healthcheck".data).head? = some '/')) := by
      rintro ⟨rfl, h | h⟩
      · simp at h
      · cases cs with
        | nil => exact hdot rfl
        | cons d ds =>
          have hd : d ≠ '/' := hns d (by simp)
          simp at h
          exact hd h
    have h3 : ¬ (c = '.' ∧ (cs ++ '/' :: "healthcheck".data).head? = some '.' ∧
        ((cs ++ '/' :: "healthcheck".data).tail = [] ∨
          (cs ++ '/' :: "healthcheck".data).tail.head? = some '/')) := by
      rintro ⟨rfl, h, h'⟩
      cases cs with
      | nil => exact hdot rfl
      | cons d ds =>
        simp at h
        subst h
        cases ds with
        | nil => exact hdd rfl
        | cons e es =>
          have he : e ≠ '/' := hns e (by simp)
          simp at h'
          exact he h'
    have htd := takeWhile_until_slash (c :: cs) "healthcheck".data hns
    rw [List.cons_append] at htd
    rw [List.cons_append, cleanLoop, if_neg hc, if_neg h2, if_neg h3, htd.1, htd.2]
    simp [cleanLoop]

/-- An address that is a single path element other than `.` is joined unchanged. -/
theorem Join_healthcheck (addr : String) (hne : addr.data ≠ [])
    (hns : ∀ x ∈ addr.data, x ≠ '/') (hdot : addr.data ≠ ['.']) :
    Join [addr, "healthcheck"] = addr ++ "/healthcheck" := by
  obtain ⟨c, cs, hcs⟩ := List.exists_cons_of_ne_nil hne
  have hc : c ≠ '/' := hns c (by rw [hcs]; exact List.mem_cons_self _ _)
  have hsum : ¬ ([addr, "healthcheck"].map fun e => e.data.length).sum = 0 := by
    intro h
    have : addr.data.length = 0 := by
      simp only [List.map_cons, List.sum_cons] at h
      omega
    exact hne (List.length_eq_zero.mp this)
  have hbuf : joinBuf [addr, "healthcheck"] [] = addr.data ++ '/' :: "healthcheck".data := by
    simp [joinBuf, hne, hcs]
  have hfuel : (addr.data ++ '/' :: "healthcheck".data).length + 1 =
      (addr.data.length + 9) + 4 := by
    simp only [List.length_append, List.length_cons]
    rfl
  have hloop := cleanLoop_single_elem addr.data (addr.data.length + 9) hne hns hdot
  unfold Join
  rw [if_neg hsum, hbuf]
  unfold Clean
  simp only [hfuel, hloop]
  simp [hcs, hc]
  apply String.ext
  simp [hcs]

/-! ## C4: the health check of the registration -/

/-- C4 (as stated, refuted): the health-check URL is not `scheme + addr + "/healthcheck"` for
every status address.  An empty address gives `http://healthcheck`, and the address
`127.0.0.2:8081/` gives a single slash before `healthcheck`. -/
theorem registration_healthcheck_url_is_cleaned :
    (registration {} "0" "host1" []).Check.HTTP = "http://healthcheck" ∧
    (registration {} "0" "host1" []).Check.HTTP ≠ "http://" ++ "" ++ "/healthcheck" ∧
    (registration { cfg := { Status := { Addr := "127.0.0.2:8081/" } } } "0" "host1" []).Check.HTTP
      = "http://127.0.0.2:8081/healthcheck" ∧
    (registration { cfg := { Status := { Addr := "127.0.0.2:8081/" } } } "0" "host1" []).Check.HTTP
      ≠ "http://" ++ "127.0.0.2:8081/" ++ "/healthcheck" := by
  refine ⟨by decide, by decide, by decide, by decide⟩

/-- C4 (amended): for every status address that is non-empty, contains no slash and is not
the single dot, the health-check URL that `register` puts in the service registration is
exactly `https://` + addr + `/healthcheck` when the status TLS config is enabled and
`http://` + addr + `/healthcheck` otherwise, with check interval `10s`, timeout `2s` and
service name `panoptes`; for every address whatsoever the URL is the scheme followed by
`path.Join(addr, "healthcheck")`. -/
theorem registration_healthcheck (c : Consul) (id host : String)
    (svcMeta : List (String × String))
    (hne : c.cfg.Status.Addr.data ≠ [])
    (hns : ∀ x ∈ c.cfg.Status.Addr.data, x ≠ '/')
    (hdot : c.cfg.Status.Addr.data ≠ ['.']) :
    (registration c id host svcMeta).Check.HTTP =
      (if c.cfg.Status.TLSConfig.Enabled then "https://" ++ c.cfg.Status.Addr ++ "/healthcheck"
        else "http://" ++ c.cfg.Status.Addr ++ "/healthcheck") ∧
    (registration c id host svcMeta).Check.Interval = "10s" ∧
    (registration c id host svcMeta).Check.Timeout = "2s" ∧
    (registration c id host svcMeta).Name = "panoptes" ∧
    (registration c id host svcMeta).ID = id ∧
    (registration c id host svcMeta).Address = host ∧
    (∀ (env : Env) (k : Consul), register env k id host svcMeta =
      env.ServiceRegister (registration k id host svcMeta) ∧
      (registration k id host svcMeta).Check.HTTP =
        (if k.cfg.Status.TLSConfig.Enabled then "https://" else "http://") ++
          Join [k.cfg.Status.Addr, "healthcheck"]) := by
  refine ⟨?_, rfl, rfl, rfl, rfl, rfl, fun env k => ⟨rfl, ?_⟩⟩
  · show (if c.cfg.Status.TLSConfig.Enabled = true
        then "https://" ++ Join [c.cfg.Status.Addr, "healthcheck"]
        else "http://" ++ Join [c.cfg.Status.Addr, "healthcheck"]) = _
    rw [Join_healthcheck _ hne hns hdot]
    split <;> rw [String.append_assoc]
  · show (if k.cfg.Status.TLSConfig.Enabled = true
        then "https://" ++ Join [k.cfg.Status.Addr, "healthcheck"]
        else "http://" ++ Join [k.cfg.Status.Addr, "healthcheck"]) = _
    split <;> rfl

/-- C4 (amended), at the status address `127.0.0.2:8081` without TLS. -/
theorem registration_healthcheck_witness :
    (registration { cfg := { Status := { Addr := "127.0.0.2:8081" } } } "0" "host1" []).Check.HTTP
      = "http://127.0.0.2:8081/healthcheck" :=
  (registration_healthcheck { cfg := { Status := { Addr := "127.0.0.2:8081" } } } "0" "host1" []
    (by decide) (by decide) (by decide)).1

/-! ## Facts about the registry and `Register` -/

theorem mem_ServiceRegister_ids (r : Registry) (reg : api.AgentServiceRegistration)
    (h : reg.ID ∈ r.map fun g => g.ID) (x : String) :
    x ∈ (r.ServiceRegister reg).map (fun g => g.ID) ↔ x ∈ r.map fun g => g.ID := by
  unfold Registry.ServiceRegister
  simp only [List.map_append, List.mem_append, List.mem_map, List.mem_filter, List.map_cons,
    List.map_nil, List.mem_singleton]
  constructor
  · rintro (⟨g, ⟨hg, _⟩, rfl⟩ | rfl)
    · exact ⟨g, hg, rfl⟩
    · simpa using h
  · rintro ⟨g, hg, rfl⟩
    by_cases hid : g.ID = reg.ID
    · exact Or.inr hid
    · exact Or.inl ⟨g, ⟨hg, by simpa using hid⟩, rfl⟩

/-- The loop of `Register` on a list with a recoverable instance: it stops at the first
instance whose id parses and whose address is the local hostname. -/
theorem registerLoop_recover (env : Env) (svcMeta : List (String × String)) (c : Consul)
    (hreg : ∀ reg, env.ServiceRegister reg = none) (inst : discovery.Instance) :
    ∀ (insts : List discovery.Instance) (ids : List Int) (log : List LogEntry),
      insts.find? (fun i => (Atoi i.ID).isSome && decide (i.Address = hostname env)) = some inst →
      ∃ warns : List LogEntry, (∀ l ∈ warns, l.msg = "consul.register") ∧
        registerLoop env svcMeta c insts ids log =
          ⟨{ c with id := inst.ID }, none, [registration c inst.ID (hostname env) svcMeta],
            log ++ warns ++ [⟨"info", "consul service registery recovered", inst.ID⟩]⟩ := by
  intro insts
  induction insts with
  | nil => intro ids log h; simp at h
  | cons i rest ih =>
    intro ids log h
    unfold registerLoop
    cases hi : Atoi i.ID with
    | none =>
      simp only [List.find?_cons, hi, Option.isSome_none, Bool.false_and] at h
      obtain ⟨warns, hw, heq⟩ := ih ids (log ++ [⟨"warn", "consul.register", i.ID⟩]) h
      refine ⟨⟨"warn", "consul.register", i.ID⟩ :: warns, ?_, ?_⟩
      · intro l hl
        rcases List.mem_cons.mp hl with rfl | hl
        · rfl
        · exact hw l hl
      · simp only [heq, List.append_assoc, List.singleton_append]
    | some id =>
      by_cases ha : i.Address = hostname env
      · simp only [List.find?_cons, hi, Option.isSome_some, ha, decide_True, Bool.and_self,
          Option.some.injEq] at h
        subst h
        refine ⟨[], by simp, ?_⟩
        simp only [if_pos ha, register, hreg, List.append_nil]
      · simp only [List.find?_cons, hi, Option.isSome_some, ha, decide_False, Bool.and_false] at h
        obtain ⟨warns, hw, heq⟩ := ih (ids ++ [id]) log h
        exact ⟨warns, hw, by simp only [if_neg ha, heq]⟩

/-! ## C3: recovery -/

/-- C3 (as stated, refuted): an instance with the local hostname is not always recovered.
The agent reports one panoptes instance, on the local host `host1`, whose id `node-a` is not
a number; `Register` skips it, takes the new-node branch, publishes `0` and adds the id `0`
to the registered ids. -/
theorem Register_unparsable_id_not_recovered :
    GetInstances (sampleEnv [⟨⟨"node-a", [], "host1"⟩, "passing"⟩] none) =
      .ok [⟨"node-a", [], "host1", "passing"⟩] ∧
    hostname (sampleEnv [⟨⟨"node-a", [], "host1"⟩, "passing"⟩] none) = "host1" ∧
    (Register (sampleEnv [⟨⟨"node-a", [], "host1"⟩, "passing"⟩] none) {}).err = none ∧
    (Register (sampleEnv [⟨⟨"node-a", [], "host1"⟩, "passing"⟩] none) {}).c.id = "0" ∧
    ((Register (sampleEnv [⟨⟨"node-a", [], "host1"⟩, "passing"⟩] none) {}).calls.map
      fun g => g.ID) = ["0"] ∧
    (((Register (sampleEnv [⟨⟨"node-a", [], "host1"⟩, "passing"⟩] none) {}).calls.foldl
      Registry.ServiceRegister
      [⟨"node-a", "panoptes", [], "host1", ⟨"http://healthcheck", "10s", "2s"⟩⟩]).map
      fun g => g.ID) = ["node-a", "0"] := by
  refine ⟨rfl, by decide, by decide, by decide, by decide, by decide⟩

/-- C3 (amended): for every list of instances returned by `GetInstances` that contains an
instance whose `Address` equals the local hostname and whose `ID` parses as an integer,
`Register` (with the lock and the register call succeeding) reuses the id of the first such
instance: it returns nil, its only registration is made under that `ID` with the local
hostname, the published id is that `ID`, the log records a recovery and no new registration,
and on a registry that holds that id the set of registered ids is unchanged. -/
theorem Register_recovery (env : Env) (c : Consul) (insts : List discovery.Instance)
    (hlock : env.Lock "panoptes_global_lock" = none)
    (hget : GetInstances env = .ok insts)
    (hreg : ∀ reg, env.ServiceRegister reg = none)
    (hex : ∃ i ∈ insts, i.Address = hostname env ∧ (Atoi i.ID).isSome) :
    ∃ inst : discovery.Instance,
      insts.find? (fun i => (Atoi i.ID).isSome && decide (i.Address = hostname env)) = some inst ∧
      inst ∈ insts ∧ inst.Address = hostname env ∧
      (Register env c).err = none ∧
      (Register env c).c = { c with id := inst.ID } ∧
      (Register env c).calls =
        [registration c inst.ID (hostname env)
          [("shard_enabled", FormatBool c.cfg.Shard.Enabled),
           ("shard_nodes", Itoa c.cfg.Shard.NumberOfNodes),
           ("version", c.cfg.Version)]] ∧
      ⟨"info", "consul service registery recovered", inst.ID⟩ ∈ (Register env c).log ∧
      (∀ l ∈ (Register env c).log, l.msg ≠ "consul service registered") ∧
      ∀ r : Registry, inst.ID ∈ r.map (fun g => g.ID) →
        ∀ x, x ∈ ((Register env c).calls.foldl Registry.ServiceRegister r).map (fun g => g.ID) ↔
          x ∈ r.map fun g => g.ID := by
  obtain ⟨i, hi, hia, hip⟩ := hex
  have hsome : (insts.find? fun i =>
      (Atoi i.ID).isSome && decide (i.Address = hostname env)).isSome := by
    rw [List.find?_isSome]
    exact ⟨i, hi, by simp [hia, hip]⟩
  obtain ⟨inst, hfind⟩ := Option.isSome_iff_exists.mp hsome
  have hmem := List.mem_of_find?_eq_some hfind
  have hprop := List.find?_some hfind
  simp only [Bool.and_eq_true, decide_eq_true_eq] at hprop
  obtain ⟨warns, hw, hloop⟩ := registerLoop_recover env
    [("shard_enabled", FormatBool c.cfg.Shard.Enabled),
     ("shard_nodes", Itoa c.cfg.Shard.NumberOfNodes),
     ("version", c.cfg.Version)] c hreg inst insts [] [] hfind
  have hR : ∃ tail : List LogEntry, (∀ l ∈ tail, l.msg = "consul.unlock") ∧
      Register env c =
        ⟨{ c with id := inst.ID }, none,
          [registration c inst.ID (hostname env)
            [("shard_enabled", FormatBool c.cfg.Shard.Enabled),
             ("shard_nodes", Itoa c.cfg.Shard.NumberOfNodes),
             ("version", c.cfg.Version)]],
          warns ++ [⟨"info", "consul service registery recovered", inst.ID⟩] ++ tail⟩ := by
    unfold Register
    simp only [hlock, hget, hloop, List.nil_append]
    unfold ulock
    cases env.Unlock with
    | none => exact ⟨[], by simp, by simp⟩
    | some e => exact ⟨[⟨"error", "consul.unlock", e⟩], by simp, rfl⟩
  obtain ⟨tail, ht, hR⟩ := hR
  refine ⟨inst, hfind, hmem, hprop.2, ?_, ?_, ?_, ?_, ?_, ?_⟩
  · rw [hR]
  · rw [hR]
  · rw [hR]
  · rw [hR]; simp
  · rw [hR]
    intro l hl
    simp only [List.mem_append, List.mem_singleton] at hl
    rcases hl with (hl | rfl) | hl
    · rw [hw l hl]; decide
    · show "consul service registery recovered" ≠ "consul service registered"
      decide
    · rw [ht l hl]; decide
  · intro r hr x
    rw [hR]
    exact mem_ServiceRegister_ids r _ hr x

/-- C3 (amended), at the instance `{id "2", address host1}` seen from `host1`: the published
id is `2`. -/
theorem Register_recovery_witness :
    (Register (sampleEnv [⟨⟨"2", [], "host1"⟩, "passing"⟩] none) {}).err = none ∧
    (Register (sampleEnv [⟨⟨"2", [], "host1"⟩, "passing"⟩] none) {}).c.id = "2" := by
  obtain ⟨inst, hfind, _, _, herr, hc, _⟩ :=
    Register_recovery (sampleEnv [⟨⟨"2", [], "host1"⟩, "passing"⟩] none) {}
      [⟨"2", [], "host1", "passing"⟩] rfl rfl (fun _ => rfl)
      ⟨⟨"2", [], "host1", "passing"⟩, by decide, by decide, by decide⟩
  have h2 : inst = ⟨"2", [], "host1", "passing"⟩ := by
    have hd : ([⟨"2", [], "host1", "passing"⟩] : List discovery.Instance).find?
        (fun i => (Atoi i.ID).isSome &&
          decide (i.Address = hostname (sampleEnv [⟨⟨"2", [], "host1"⟩, "passing"⟩] none))) =
        some ⟨"2", [], "host1", "passing"⟩ := by decide
    exact (Option.some.inj (hfind.symm.trans hd))
  refine ⟨herr, ?_⟩
  rw [hc, h2]

/-! ## C2: sequential registration -/

/-- The loop of `Register` on a list without a recoverable instance and with parsable ids:
it collects the ids and reaches the new-node branch. -/
theorem registerLoop_no_match (env : Env) (svcMeta : List (String × String)) (c : Consul) :
    ∀ (insts : List discovery.Instance) (ids : List Int) (log : List LogEntry),
      (∀ i ∈ insts, (Atoi i.ID).isSome ∧ i.Address ≠ hostname env) →
      registerLoop env svcMeta c insts ids log =
        registerLoop env svcMeta c [] (ids ++ insts.map fun i => (Atoi i.ID).getD 0) log := by
  intro insts
  induction insts with
  | nil => intro ids log _; simp
  | cons i rest ih =>
    intro ids log h
    obtain ⟨hp, ha⟩ := h i (List.mem_cons_self _ _)
    obtain ⟨id, hid⟩ := Option.isSome_iff_exists.mp hp
    have hrest := ih (ids ++ [id]) log fun j hj => h j (List.mem_cons_of_mem _ hj)
    have hstep : registerLoop env svcMeta c (i :: rest) ids log =
        registerLoop env svcMeta c rest (ids ++ [id]) log := by
      rw [registerLoop.eq_2]
      simp only [hid, if_neg ha]
    rw [hstep, hrest]
    simp only [List.map_cons, hid, Option.getD_some, List.append_assoc, List.singleton_append]

/-- Registering a service whose id is not held under `name` adds it to the services of
that name. -/
theorem services_ServiceRegister (r : Registry) (reg : api.AgentServiceRegistration)
    (name : String) (hname : reg.Name = name)
    (hfresh : reg.ID ∉ (r.services name).map Prod.fst) :
    (r.ServiceRegister reg).services name = r.services name ++ [(reg.ID, reg.Address)] := by
  have hkeep : (r.filter fun g => g.ID ≠ reg.ID).filter (fun g => g.Name = name) =
      r.filter fun g => g.Name = name := by
    rw [List.filter_filter]
    apply List.filter_congr
    intro g hg
    by_cases hn : g.Name = name
    · have hne : g.ID ≠ reg.ID := by
        intro heq
        apply hfresh
        rw [← heq]
        unfold Registry.services
        simp only [List.map_map, List.mem_map, List.mem_filter, decide_eq_true_eq]
        exact ⟨g, ⟨hg, hn⟩, rfl⟩
      simp [hn, hne]
    · simp [hn]
  unfold Registry.ServiceRegister Registry.services
  rw [List.filter_append, hkeep]
  simp [hname]

/-- One registration from a host that is not yet registered, against a table whose panoptes
ids are the numbers below `k`: the call succeeds, publishes `k` and registers it. -/
theorem Register_new_node (view : Registry → String → List api.AgentServiceChecksInfo)
    (hview : Serves view) (r : Registry) (nd : Node) (k : Nat) (hk : k < 2 ^ 63)
    (hids : ((r.services "panoptes").map Prod.fst).Perm
      ((List.range k).map fun j : Nat => Itoa (j : Int)))
    (hhost : ∀ q ∈ r.services "panoptes", q.2 ≠ nd.host) :
    (Register (Registry.env view r nd.host) nd.c).err = none ∧
    (Register (Registry.env view r nd.host) nd.c).c.id = Itoa (k : Int) ∧
    ∃ reg : api.AgentServiceRegistration,
      (Register (Registry.env view r nd.host) nd.c).calls = [reg] ∧
      reg.ID = Itoa (k : Int) ∧ reg.Name = "panoptes" ∧ reg.Address = nd.host := by
  have hv := hview r "panoptes"
  have hparse : ∀ s ∈ (r.services "panoptes").map Prod.fst,
      ∃ j : Nat, j < k ∧ s = Itoa (j : Int) := by
    intro s hs
    have := hids.mem_iff.mp hs
    simp only [List.mem_map, List.mem_range] at this
    obtain ⟨j, hj, rfl⟩ := this
    exact ⟨j, hj, rfl⟩
  have hinsts : ∀ i ∈ (view r "panoptes").map (fun info : api.AgentServiceChecksInfo =>
      ({ ID := info.Service.ID, Meta := info.Service.Meta, Address := info.Service.Address,
         Status := info.Status } : discovery.Instance)),
      (Atoi i.ID).isSome ∧ i.Address ≠ hostname (Registry.env view r nd.host) := by
    intro i hi
    simp only [List.mem_map] at hi
    obtain ⟨info, hinfo, rfl⟩ := hi
    have hq : (info.Service.ID, info.Service.Address) ∈ r.services "panoptes" :=
      hv.mem_iff.mp (List.mem_map.mpr ⟨info, hinfo, rfl⟩)
    obtain ⟨j, hj, hs⟩ := hparse info.Service.ID (List.mem_map.mpr ⟨_, hq, rfl⟩)
    refine ⟨?_, hhost _ hq⟩
    show (Atoi info.Service.ID).isSome
    rw [hs, Atoi_Itoa_natCast j (by omega)]
    rfl
  have hidsPerm : (((view r "panoptes").map (fun info : api.AgentServiceChecksInfo =>
      ({ ID := info.Service.ID, Meta := info.Service.Meta, Address := info.Service.Address,
         Status := info.Status } : discovery.Instance))).map
        fun i => (Atoi i.ID).getD 0).Perm ((List.range k).map fun j : Nat => (j : Int)) := by
    have h1 : (((view r "panoptes").map fun i => (i.Service.ID, i.Service.Address)).map
        Prod.fst).Perm ((List.range k).map fun j : Nat => Itoa (j : Int)) :=
      (hv.map Prod.fst).trans hids
    have h2 := h1.map fun s => (Atoi s).getD 0
    simp only [List.map_map] at h2 ⊢
    refine h2.trans (List.Perm.of_eq ?_)
    apply List.map_congr_left
    intro j hj
    have hj' : j < k := List.mem_range.mp hj
    simp only [Function.comp_apply]
    rw [Atoi_Itoa_natCast j (by omega)]
    rfl
  have hget : GetInstances (Registry.env view r nd.host) =
      .ok ((view r "panoptes").map fun info =>
        { ID := info.Service.ID, Meta := info.Service.Meta, Address := info.Service.Address,
          Status := info.Status }) := rfl
  have hgid := getID_of_perm_range _ k hidsPerm
  have hR : Register (Registry.env view r nd.host) nd.c =
      ⟨{ nd.c with id := Itoa (k : Int) }, none,
        [registration { nd.c with id := Itoa (k : Int) } (Itoa (k : Int)) nd.host
          [("shard_enabled", FormatBool nd.c.cfg.Shard.Enabled),
           ("shard_nodes", Itoa nd.c.cfg.Shard.NumberOfNodes),
           ("version", nd.c.cfg.Version)]],
        [⟨"info", "consul service registered", Itoa (k : Int)⟩]⟩ := by
    unfold Register
    have hl : (Registry.env view r nd.host).Lock "panoptes_global_lock" = none := rfl
    simp only [hl, hget]
    rw [registerLoop_no_match _ _ _ _ _ _ hinsts]
    simp only [List.nil_append, registerLoop, hgid]
    rfl
  rw [hR]
  exact ⟨rfl, rfl, _, rfl, rfl, rfl, rfl⟩

/-- Sequential registration from a table whose panoptes ids are the numbers below `k`, by
hosts that are pairwise distinct and not yet registered. -/
theorem registerAll_spec (view : Registry → String → List api.AgentServiceChecksInfo)
    (hview : Serves view) :
    ∀ (nodes : List Node) (r : Registry) (k : Nat),
      ((r.services "panoptes").map Prod.fst).Perm
        ((List.range k).map fun j : Nat => Itoa (j : Int)) →
      (∀ q ∈ r.services "panoptes", ∀ nd ∈ nodes, q.2 ≠ nd.host) →
      (nodes.map Node.host).Nodup → k + nodes.length ≤ 2 ^ 63 →
      (∀ o ∈ (registerAll view r nodes).2, o.err = none) ∧
      ((registerAll view r nodes).2.map fun o => o.c.id) =
        (List.range' k nodes.length).map (fun j : Nat => Itoa (j : Int)) ∧
      (((registerAll view r nodes).1.services "panoptes").map Prod.fst).Perm
        ((List.range (k + nodes.length)).map fun j : Nat => Itoa (j : Int)) := by
  intro nodes
  induction nodes with
  | nil =>
    intro r k hids _ _ _
    exact ⟨by simp [registerAll], by simp [registerAll], by simpa [registerAll] using hids⟩
  | cons nd rest ih =>
    intro r k hids hhost hnd hlen
    simp only [List.length_cons] at hlen
    simp only [List.map_cons, List.nodup_cons] at hnd
    obtain ⟨herr, hid, reg, hcalls, hrid, hrname, hraddr⟩ :=
      Register_new_node view hview r nd k (by omega) hids
        fun q hq => hhost q hq nd (List.mem_cons_self _ _)
    have hfresh : reg.ID ∉ (r.services "panoptes").map Prod.fst := by
      intro hmem
      have := hids.mem_iff.mp hmem
      simp only [List.mem_map, List.mem_range] at this
      obtain ⟨j, hj, hjk⟩ := this
      have := Itoa_natCast_inj j k (hjk.trans hrid)
      omega
    have hsvc := services_ServiceRegister r reg "panoptes" hrname hfresh
    have hids' : (((r.ServiceRegister reg).services "panoptes").map Prod.fst).Perm
        ((List.range (k + 1)).map fun j : Nat => Itoa (j : Int)) := by
      rw [hsvc, List.map_append, List.range_succ, List.map_append]
      simpa [hrid] using hids.append_right [Itoa (k : Int)]
    have hhost' : ∀ q ∈ (r.ServiceRegister reg).services "panoptes", ∀ n ∈ rest,
        q.2 ≠ n.host := by
      intro q hq n hn
      rw [hsvc] at hq
      rcases List.mem_append.mp hq with hq | hq
      · exact hhost q hq n (List.mem_cons_of_mem _ hn)
      · simp only [List.mem_singleton] at hq
        subst hq
        intro heq
        apply hnd.1
        simp only [hraddr] at heq
        rw [heq]
        exact List.mem_map.mpr ⟨n, hn, rfl⟩
    obtain ⟨h1, h2, h3⟩ := ih (r.ServiceRegister reg) (k + 1) hids' hhost' hnd.2 (by omega)
    have hfold : (Register (Registry.env view r nd.host) nd.c).calls.foldl
        Registry.ServiceRegister r = r.ServiceRegister reg := by
      rw [hcalls]
      rfl
    simp only [registerAll, hfold]
    refine ⟨?_, ?_, ?_⟩
    · intro o ho
      rcases List.mem_cons.mp ho with rfl | ho
      · exact herr
      · exact h1 o ho
    · rw [List.map_cons, hid, h2, List.length_cons, List.range'_succ, List.map_cons]
    · have : k + (nd :: rest).length = k + 1 + rest.length := by
        simp only [List.length_cons]; omega
      rw [this]
      exact h3

/-- C2: starting from a registry with no panoptes instance, when the instances of pairwise
distinct hostnames run `Register` one after another against a working agent (every lock,
listing and registration succeeds, the listing in any order), every call returns nil, the
k-th instance publishes the id `k`, the published ids are pairwise distinct, and the set of
registered panoptes ids is exactly `0 … N-1`. -/
theorem registerAll_distinct_ids (view : Registry → String → List api.AgentServiceChecksInfo)
    (hview : Serves view) (r0 : Registry) (h0 : r0.services "panoptes" = [])
    (nodes : List Node) (hhosts : (nodes.map Node.host).Nodup)
    (hlen : nodes.length ≤ 2 ^ 63) :
    (∀ o ∈ (registerAll view r0 nodes).2, o.err = none) ∧
    (registerAll view r0 nodes).2.length = nodes.length ∧
    ((registerAll view r0 nodes).2.map fun o => o.c.id) =
      (List.range nodes.length).map (fun j : Nat => Itoa (j : Int)) ∧
    ((registerAll view r0 nodes).2.map fun o => o.c.id).Nodup ∧
    (((registerAll view r0 nodes).1.services "panoptes").map Prod.fst).Perm
      ((List.range nodes.length).map fun j : Nat => Itoa (j : Int)) := by
  obtain ⟨h1, h2, h3⟩ := registerAll_spec view hview nodes r0 0 (by simp [h0])
    (by simp [h0]) hhosts (by omega)
  rw [← List.range_eq_range'] at h2
  rw [Nat.zero_add] at h3
  refine ⟨h1, ?_, h2, ?_, h3⟩
  · have := congrArg List.length h2
    simpa using this
  · rw [h2]
    exact (List.nodup_range _).map fun a b hab => Itoa_natCast_inj a b hab

/-- The table-order health answer reports the registry faithfully. -/
theorem Serves_health : Serves Registry.health := by
  intro r name
  unfold Registry.health Registry.services
  rw [List.map_map]
  exact List.Perm.refl _

/-- C2, for three hosts registering against an agent that already holds a service of another
name under the id `0`: the published ids are `0`, `1`, `2`. -/
theorem registerAll_distinct_ids_witness :
    ((registerAll Registry.health
        [⟨"0", "web", [], "host9", ⟨"http://host9/healthcheck", "10s", "2s"⟩⟩]
        [⟨"host1", {}⟩, ⟨"host2", {}⟩, ⟨"host3", {}⟩]).2.map fun o => o.c.id) = ["0", "1", "2"] ∧
    (((registerAll Registry.health
        [⟨"0", "web", [], "host9", ⟨"http://host9/healthcheck", "10s", "2s"⟩⟩]
        [⟨"host1", {}⟩, ⟨"host2", {}⟩, ⟨"host3", {}⟩]).1.services "panoptes").map Prod.fst).Perm
      ["0", "1", "2"] :=
  ⟨(registerAll_distinct_ids Registry.health Serves_health
      [⟨"0", "web", [], "host9", ⟨"http://host9/healthcheck", "10s", "2s"⟩⟩] (by decide)
      [⟨"host1", {}⟩, ⟨"host2", {}⟩, ⟨"host3", {}⟩] (by decide) (by norm_num)).2.2.1,
   (registerAll_distinct_ids Registry.health Serves_health
      [⟨"0", "web", [], "host9", ⟨"http://host9/healthcheck", "10s", "2s"⟩⟩] (by decide)
      [⟨"host1", {}⟩, ⟨"host2", {}⟩, ⟨"host3", {}⟩] (by decide) (by norm_num)).2.2.2.2⟩

end Panoptes
